import Mathlib

/-!
Verification development for the discriminator-classifier perturbation space of
`pertpy` (`src/pertpy/tools/_perturbation_space/_discriminator_classifier.py`).

The Python module is shallowly embedded: the data matrix and the observation
table of an annotated data object (`AnnData`) are lists over `ℚ` and `String`;
the MLP (`MLP.__init__`, `MLP.forward`, `MLP.embedding`) is a list of layers
applied in sequence; `DiscriminatorClassifierSpace.load` is a function from an
`AnnData` plus its parameters to `Except LoadErr LoadOut × AnnData`, returning
the (possibly mutated) annotated data object alongside the outcome, and
`DiscriminatorClassifierSpace.get_embeddings` consumes the stored state
(`LoadOut`).  Machine floats are modelled by rationals; the randomized parts
(weight initialization, the shuffles inside `sklearn.model_selection.train_test_split`)
are passed in explicitly as parameters (`MLPParams`, the permutations
`perm1`/`perm2`), so every definition stays executable.
-/

set_option linter.unusedVariables false

/-- A value stored in one cell of an observation ("obs") column: either a string
label or a numeric vector (the one-hot encoded labels that `load` writes into
`adata.obs["encoded_perturbations"]`). -/
inductive ColVal where
  | str (s : String)
  | vec (v : List ℚ)
deriving DecidableEq

/-- An observation table: a list of named columns, each a list of values
(one per cell), mirroring the pandas `DataFrame` in `adata.obs`. -/
abbrev ObsTable := List (String × List ColVal)

/-- Shallow model of an `anndata.AnnData` object: data matrix `X`
(cells x genes), variable names `var`, the `layers` mapping, and the
observation table `obs`. -/
structure AnnData where
  X : List (List ℚ)
  var : List String
  layers : List (String × List (List ℚ))
  obs : ObsTable
deriving DecidableEq

/-- Number of observations (cells), `adata.n_obs`. -/
def AnnData.n_obs (a : AnnData) : ℕ := a.X.length

/-- Number of variables (genes), `adata.n_vars`. -/
def AnnData.n_vars (a : AnnData) : ℕ := a.var.length

/-- First-match association lookup, as pandas column access does. -/
def lookupCol {β : Type} (t : List (String × β)) (n : String) : Option β :=
  match t with
  | [] => none
  | p :: rest => if p.1 = n then some p.2 else lookupCol rest n

/-- The column names of an observation table (`adata.obs.columns`). -/
def obsNames (t : ObsTable) : List String := t.map Prod.fst

/-- Pandas column assignment `t[n] = v`: replace the column if the name exists,
append it at the end otherwise. -/
def setObsCol (t : ObsTable) (n : String) (v : List ColVal) : ObsTable :=
  if n ∈ obsNames t then t.map (fun p => if p.1 = n then (n, v) else p)
  else t ++ [(n, v)]

/-- Pandas `t.drop(n, axis=1)`: remove every column named `n`. -/
def dropObsCol (t : ObsTable) (n : String) : ObsTable :=
  t.filter (fun p => p.1 ≠ n)

/-- The string values of a column (labels are strings in the source). -/
def colStrs (vals : List ColVal) : List String :=
  vals.filterMap (fun v => match v with | .str s => some s | .vec _ => none)

/-- The per-cell perturbation labels `adata.obs[target_col]`. -/
def targetLabels (a : AnnData) (tc : String) : List String :=
  colStrs ((lookupCol a.obs tc).getD [])

/-- The class count `n_classes = len(adata.obs[target_col].unique())`
(line 77): the number of distinct labels appearing in the target column. -/
def nClassesOf (a : AnnData) (tc : String) : ℕ :=
  (targetLabels a tc).dedup.length

/-- Lexicographic comparison of character lists (code-unit order, as numpy
compares strings when `np.unique` sorts the encoder categories). -/
def charListLe : List Char → List Char → Bool
  | [], _ => true
  | _ :: _, [] => false
  | c :: cs, d :: ds => if c < d then true else if d < c then false else charListLe cs ds

/-- Lexicographic comparison of strings through their character lists. -/
def strLe (s t : String) : Bool := charListLe s.data t.data

/-- Ordered insertion into a lexicographically sorted list of strings. -/
def insertSorted (x : String) : List String → List String
  | [] => [x]
  | y :: ys => if strLe x y then x :: y :: ys else y :: insertSorted x ys

/-- Lexicographic insertion sort on strings. -/
def sortStrings (l : List String) : List String := l.foldr insertSorted []

/-- The categories of `sklearn.preprocessing.OneHotEncoder` fitted on the
labels: the distinct labels in lexicographically sorted order. -/
def ohCats (labels : List String) : List String := sortStrings labels.dedup

/-- One row of `encoder.fit_transform(labels).toarray()` (line 80): the one-hot
indicator of label `l` against the fitted categories. -/
def oneHotRow (cats : List String) (l : String) : List ℚ :=
  cats.map (fun c => if c = l then 1 else 0)

/-- The full encoded label matrix written into
`adata.obs["encoded_perturbations"]` (lines 78-81). -/
def encodedOf (a : AnnData) (tc : String) : List (List ℚ) :=
  (targetLabels a tc).map (oneHotRow (ohCats (targetLabels a tc)))

/-! ### The MLP (`class MLP`, lines 199-257) -/

/-- One element of the stack built by `MLP.__init__`.  `torch.nn.BatchNorm1d`
in eval mode is the affine map with the folded running statistics, so it is
carried as a `scale`/`shift` pair; `torch.nn.Dropout` is the identity in eval
mode and carries its probability only. -/
inductive Layer where
  | linear (inDim outDim : ℕ) (W : List (List ℚ)) (b : List ℚ)
  | batchNorm (dim : ℕ) (scale shift : List ℚ)
  | layerNorm (dim : ℕ)
  | relu
  | dropout (p : ℚ)
deriving DecidableEq

/-- Dot product of two rational vectors. -/
def dotQ (a b : List ℚ) : ℚ := (List.zipWith (· * ·) a b).sum

/-- Mean of a rational vector (0 for the empty vector, as a convention). -/
def qmean (x : List ℚ) : ℚ := x.sum / x.length

/-- Population variance of a rational vector. -/
def qvar (x : List ℚ) : ℚ := qmean (x.map (fun v => (v - qmean x) ^ 2))

/-- Eval-time application of a layer to a feature vector.
`linear` produces `outDim` outputs `W x + b` as `torch.nn.Linear` does;
`batchNorm` applies its folded affine map elementwise; `relu` clamps at zero;
`dropout` is the identity (inference mode).  `layerNorm` centers and scales by
a rational surrogate `1/(var + eps)` for the irrational `1/sqrt(var + eps)`;
`load` never enables `layer_norm` (the `MLP` call at line 114 passes only
`dropout` and `batch_norm`), so no claim depends on its numeric output, only
on the fact that it preserves the vector length. -/
def Layer.apply : Layer → List ℚ → List ℚ
  | .linear _ outDim W b, x =>
      (List.range outDim).map (fun j => dotQ (W.getD j []) x + b.getD j 0)
  | .batchNorm _ s t, x =>
      (List.range x.length).map (fun i => s.getD i 0 * x.getD i 0 + t.getD i 0)
  | .layerNorm _, x =>
      x.map (fun v => (v - qmean x) / (qvar x + 1 / 100000))
  | .relu, x => x.map (fun v => max v 0)
  | .dropout _, x => x

/-- The randomized parameters of the network: the weight matrix and bias of the
`s`-th `torch.nn.Linear`, and the folded eval-time scale/shift of the `s`-th
`torch.nn.BatchNorm1d` (`init_weights`, running statistics). -/
structure MLPParams where
  W : ℕ → List (List ℚ)
  b : ℕ → List ℚ
  bnScale : ℕ → List ℚ
  bnShift : ℕ → List ℚ

/-- The five optional entries appended for step `s` of the loop in
`MLP.__init__` (lines 222-229): `Linear`, then `BatchNorm1d` when `batch_norm`
holds and `s` is not the final step, then `LayerNorm` when `layer_norm` holds
without `batch_norm`, then `ReLU`, then `Dropout` for non-final steps. -/
def mlpChunk (sizes : List ℕ) (dr : ℚ) (bn ln : Bool) (p : MLPParams)
    (s : ℕ) : List (Option Layer) :=
  [some (.linear (sizes.getD s 0) (sizes.getD (s + 1) 0) (p.W s) (p.b s)),
   if bn = true ∧ s < sizes.length - 2
     then some (.batchNorm (sizes.getD (s + 1) 0) (p.bnScale s) (p.bnShift s)) else none,
   if ln = true ∧ s < sizes.length - 2 ∧ bn = false
     then some (.layerNorm (sizes.getD (s + 1) 0)) else none,
   some .relu,
   if s < sizes.length - 2 then some (.dropout dr) else none]

/-- `self.network` as built by `MLP.__init__` (lines 221-231): concatenate the
chunks for `s in range(len(sizes) - 1)`, drop the `None` entries, and drop the
trailing `ReLU` (`[:-1]`). -/
def mlpNetwork (sizes : List ℕ) (dr : ℚ) (bn ln : Bool) (p : MLPParams) : List Layer :=
  ((((List.range (sizes.length - 1)).flatMap (mlpChunk sizes dr bn ln p)).filterMap id)).dropLast

/-- Apply a stack of layers in sequence. -/
def applyChain (ls : List Layer) (x : List ℚ) : List ℚ :=
  ls.foldl (fun v l => l.apply v) x

/-- `MLP.forward` for the `last_layer_act = "linear"` case used by `load`
(lines 249-252): run the whole network. -/
def mlpForwardLinear (net : List Layer) (x : List ℚ) : List ℚ :=
  applyChain net x

/-- `MLP.embedding` (lines 254-257): run every layer of `self.network` except
the last one. -/
def mlpEmbeddingF (net : List Layer) (x : List ℚ) : List ℚ :=
  applyChain net.dropLast x

/-! ### `DiscriminatorClassifierSpace.load` (lines 29-125) -/

/-- The exceptions `load` can raise: the two explicit `ValueError`s of
lines 67-71, and the `KeyError` from `adata.layers[layer_key]` inside
`PLDataset.__init__` (line 288) when the key passed the obs-column check but
names no layer. -/
inductive LoadErr where
  | valueErrorLayerKey
  | valueErrorTargetCol
  | keyErrorLayer
deriving DecidableEq

/-- The condition of line 67: `layer_key is not None and layer_key not in
adata.obs.columns` — note the check consults the observation columns, not the
layers mapping. -/
def layerKeyBad (a : AnnData) (lk : Option String) : Prop :=
  match lk with
  | none => False
  | some k => k ∉ obsNames a.obs

instance (a : AnnData) (lk : Option String) : Decidable (layerKeyBad a lk) := by
  unfold layerKeyBad
  match lk with
  | none => exact inferInstance
  | some k => exact inferInstance

/-- The sampling weights of line 105:
`1 / (1 + torch.sum(torch.tensor(train_dataset.labels), dim=1))`, where each
row of `labels` is a one-hot encoded label, so the inner sum runs over the
entries of each row. -/
def trainWeightsOf (encodedRows : List (List ℚ)) : List ℚ :=
  encodedRows.map (fun row => 1 / (1 + row.sum))

/-- The layer sizes of line 113: `[adata.n_vars] + hidden_dim + [n_classes]`,
with `hidden_dim` defaulting to `[512]` (lines 73-74). -/
def sizesOf (a : AnnData) (tc : String) (hd : Option (List ℕ)) : List ℕ :=
  [a.n_vars] ++ hd.getD [512] ++ [nClassesOf a tc]

/-- The data matrix a `PLDataset` reads (lines 287-290): the named layer when
`layer_key` is set (raising `KeyError` when absent), `adata.X` otherwise. -/
def entireDataOf (a : AnnData) (lk : Option String) : Except LoadErr (List (List ℚ)) :=
  match lk with
  | none => .ok a.X
  | some k =>
    match lookupCol a.layers k with
    | some m => .ok m
    | none => .error .keyErrorLayer

/-- The state `load` stores on `self` for later use by `train` and
`get_embeddings`. -/
structure LoadOut where
  nClasses : ℕ
  sizes : List ℕ
  net : List Layer
  trainIdx : List ℕ
  valIdx : List ℕ
  testIdx : List ℕ
  trainWeights : List ℚ
  entireBatchSize : ℕ
  entireData : List (List ℚ)
  entireLabels : List String
  adataObs : ObsTable
deriving Inhabited

/-- Shallow model of `DiscriminatorClassifierSpace.load` (lines 29-125).
The two shuffles inside `train_test_split` are passed in as `perm1` (a
permutation of `range(adata.n_obs)`; the first `n_test` entries become the test
set, line 87) and `perm2` (a permutation of the remaining train portion; its
first `n_val` entries become the validation set, lines 88-90), with
`n_test = ceil(test_split_size * n)` and
`n_val = ceil(validation_split_size * (n - n_test))` as in
`sklearn.model_selection._split._validate_shuffle_split`.  The mutated
annotated data object is returned alongside the outcome: the one-hot column
write of line 81 happens after the two `ValueError` checks and before the
`KeyError` of the dataset construction, so the object comes back unchanged in
the first two error cases and mutated otherwise. -/
def load (a : AnnData) (tc : String) (lk : Option String) (hd : Option (List ℕ))
    (dr : ℚ) (bn : Bool) (B : ℕ) (ts vs : ℚ) (p : MLPParams)
    (perm1 perm2 : List ℕ) : Except LoadErr LoadOut × AnnData :=
  if layerKeyBad a lk then (.error .valueErrorLayerKey, a)
  else if tc ∈ obsNames a.obs then
    let labels := targetLabels a tc
    let encoded := encodedOf a tc
    let a' : AnnData :=
      { a with obs := setObsCol a.obs "encoded_perturbations" (encoded.map ColVal.vec) }
    match entireDataOf a' lk with
    | .error e => (.error e, a')
    | .ok entireData =>
      let nTest := Nat.ceil (ts * a.n_obs)
      let testIdx := perm1.take nTest
      let rest := perm1.drop nTest
      let nVal := Nat.ceil (vs * rest.length)
      let valIdx := perm2.take nVal
      let trainIdx := perm2.drop nVal
      let trainWeights := trainWeightsOf (trainIdx.map (fun i => encoded.getD i []))
      let sizes := sizesOf a tc hd
      let net := mlpNetwork sizes dr bn false p
      (.ok { nClasses := nClassesOf a tc, sizes := sizes, net := net,
             trainIdx := trainIdx, valIdx := valIdx, testIdx := testIdx,
             trainWeights := trainWeights, entireBatchSize := B * 2,
             entireData := entireData, entireLabels := labels,
             adataObs := a'.obs }, a')
  else (.error .valueErrorTargetCol, a)

/-! ### `DiscriminatorClassifierSpace.get_embeddings` (lines 159-196) -/

/-- Helper for `chunks` with explicit structural fuel; the list length bounds
the number of batches, since every batch consumes at least one element. -/
def chunksAux {α : Type} (k : ℕ) : ℕ → List α → List (List α)
  | _, [] => []
  | 0, _ :: _ => []
  | fuel + 1, x :: xs => (x :: xs).take k :: chunksAux k fuel ((x :: xs).drop k)

/-- Split a list into consecutive batches of size `k`, as the `DataLoader`
over `total_dataset` does with `shuffle=False` (line 120). -/
def chunks {α : Type} (k : ℕ) (l : List α) : List (List α) :=
  if k = 0 then [] else chunksAux k l.length l

/-- The result of `torch.squeeze` on a two-dimensional tensor: every axis of
size one is removed, so the result can be a scalar, a vector, or a matrix. -/
inductive STensor where
  | scalar (q : ℚ)
  | vec (v : List ℚ)
  | mat (m : List (List ℚ))
deriving DecidableEq

/-- Whether the squeezed tensor is still a two-dimensional matrix. -/
def STensor.isMat : STensor → Bool
  | .mat _ => true
  | _ => false

/-- `torch.squeeze(emb)` (line 177) on the batch-by-features matrix `emb`. -/
def squeezeMat (m : List (List ℚ)) : STensor :=
  if m.length = 1 then
    let r := m.headD []
    if r.length = 1 then .scalar (r.headD 0) else .vec r
  else if (m.headD []).length = 1 then .vec (m.map (fun r => r.headD 0))
  else .mat m

/-- The per-batch annotated data object of lines 178-179. -/
structure BatchAD where
  X : List (List ℚ)
  pert : List String
deriving DecidableEq

/-- `AnnData(X=emb.cpu().numpy())` (line 178): `anndata._core.anndata._check_2d_shape`
raises `ValueError("X needs to be 2-dimensional, ...")` unless the squeezed
tensor still has two axes. -/
def mkBatchAnnData (t : STensor) (ys : List String) : Except String BatchAD :=
  match t with
  | .mat m => .ok ⟨m, ys⟩
  | _ => .error "X needs to be 2-dimensional"


/-- The final annotated data object returned by `get_embeddings`: the stacked
embedding matrix, the `perturbations` column, and the assembled observation
table. -/
structure PertAD where
  X : List (List ℚ)
  pert : List String
  obs : ObsTable
deriving DecidableEq, Inhabited

/-- The loop of lines 175-183: for each batch, compute the embeddings
(`self.model.get_embeddings`, lines 408-413, applies `MLP.embedding` to the
float-cast data), squeeze, wrap in an `AnnData`, and concatenate with the
accumulator; the accumulator is `none` before the first batch
(`dataset_count == 0`). -/
def embLoop (net : List Layer) (acc : Option BatchAD) :
    List (List (List ℚ × String)) → Except String (Option BatchAD)
  | [] => .ok acc
  | b :: bs =>
    let xs := b.map Prod.fst
    let ys := b.map Prod.snd
    let emb := xs.map (mlpEmbeddingF net)
    match mkBatchAnnData (squeezeMat emb) ys with
    | .error e => .error e
    | .ok bad =>
      match acc with
      | none => embLoop net (some bad) bs
      | some prev => embLoop net (some ⟨prev.X ++ bad.X, prev.pert ++ bad.pert⟩) bs

/-- The embedding rows accumulated so far (empty before the first batch). -/
def accX : Option BatchAD → List (List ℚ)
  | none => []
  | some q => q.X

/-- The perturbation labels accumulated so far (empty before the first
batch). -/
def accPert : Option BatchAD → List String
  | none => []
  | some q => q.pert

/-- Shallow model of `DiscriminatorClassifierSpace.get_embeddings`
(lines 159-196).  The batches of `self.entire_dataset` are the consecutive
chunks of size `batch_size * 2` of the stored data paired with the stored
string labels (`shuffle=False`, `num_workers=0`, line 120).  After the loop,
the observation table is assembled (lines 187-194): the `perturbations` column
of the concatenated batches comes first, then the saved `adata.obs` with any
pre-existing `perturbations` column dropped, and finally the
`encoded_perturbations` column is dropped.  When the loop body never ran the
name `pert_adata` is unbound (a `NameError` at line 187). -/
def getEmbeddings (out : LoadOut) : Except String PertAD :=
  let batches := chunks out.entireBatchSize (out.entireData.zip out.entireLabels)
  match embLoop out.net none batches with
  | .error e => .error e
  | .ok none => .error "NameError: name pert_adata is not defined"
  | .ok (some pa) =>
    let obs0 :=
      if "perturbations" ∈ obsNames out.adataObs
        then dropObsCol out.adataObs "perturbations" else out.adataObs
    let obs1 : ObsTable := ("perturbations", pa.pert.map ColVal.str) :: obs0
    let obs2 := dropObsCol obs1 "encoded_perturbations"
    .ok ⟨pa.X, pa.pert, obs2⟩

/-- The final classification `Linear` layer of the network `load` builds: the
last element appended by the loop of `MLP.__init__`, mapping the last hidden
size to `n_classes`. -/
def finalLinear (a : AnnData) (tc : String) (hd : Option (List ℕ)) (p : MLPParams) : Layer :=
  .linear ((sizesOf a tc hd).getD ((sizesOf a tc hd).length - 2) 0)
    ((sizesOf a tc hd).getD ((sizesOf a tc hd).length - 1) 0)
    (p.W ((sizesOf a tc hd).length - 2)) (p.b ((sizesOf a tc hd).length - 2))

/-! ### Concrete instances used by witnesses and counterexamples -/

/-- A small annotated data object: four cells, two genes, three cells labelled
"control" and one labelled "KO". -/
def fixA : AnnData :=
  { X := [[1, 0], [0, 1], [1, 1], [2, 0]], var := ["g1", "g2"], layers := [],
    obs := [("perturbations",
      [.str "control", .str "control", .str "control", .str "KO"])] }

/-- Trivial network parameters (all weight lists empty; `Layer.apply` then
produces zero entries of the right arity). -/
def fixP : MLPParams := ⟨fun _ => [], fun _ => [], fun _ => [], fun _ => []⟩

/-- A concrete successful `load` call on `fixA`: one hidden layer of size 3,
batch size 1, `test_split_size = 1/4`, `validation_split_size = 1/3`, identity
first shuffle, second shuffle keeping the order of the remaining indices. -/
def fixLoad : Except LoadErr LoadOut × AnnData :=
  load fixA "perturbations" none (some [3]) 0 true 1 (1/4) (1/3) fixP
    [0, 1, 2, 3] [1, 2, 3]

/-- The `LoadOut` of the concrete call (it succeeds, see `fixLoad_eq`). -/
def fixOut : LoadOut :=
  match fixLoad.1 with
  | .ok o => o
  | .error _ => default

/-- A second concrete `load` call on `fixA` with every parameter defaulted as
in the Python signature (`hidden_dim = None`, i.e. `[512]`). -/
def fixLoadDefault : Except LoadErr LoadOut × AnnData :=
  load fixA "perturbations" none none 0 true 256 (1/5) (1/4) fixP
    [0, 1, 2, 3] [1, 2, 3]

/-- The `LoadOut` of the defaulted concrete call. -/
def fixOutDefault : LoadOut :=
  match fixLoadDefault.1 with
  | .ok o => o
  | .error _ => default

/-- An annotated data object that has a layer `"l1"` which is *not* an
observation column, and an observation column `"marker"` which is *not* a
layer. -/
def fixB : AnnData :=
  { X := [[1], [2]], var := ["g1"], layers := [("l1", [[5], [6]])],
    obs := [("perturbations", [.str "a", .str "b"]),
            ("marker", [.str "m1", .str "m2"])] }

/-- The embedding annotated data object produced by `get_embeddings` after the
concrete `fixLoad` call. -/
def fixPert : PertAD :=
  match getEmbeddings fixOut with
  | .ok r => r
  | .error _ => default

/-- An eight-cell annotated data object for the class-balance claim: six
cells labelled "control" (indices 0-5) and two labelled "KO" (indices 6-7),
so every class has at least two members at every stage of a stratified
split. -/
def cbA : AnnData :=
  { X := [[1, 0], [0, 1], [1, 1], [2, 0], [0, 2], [2, 1], [1, 2], [2, 2]],
    var := ["g1", "g2"], layers := [],
    obs := [("perturbations",
      [.str "control", .str "control", .str "control", .str "control",
       .str "control", .str "control", .str "KO", .str "KO"])] }

/-- A concrete successful `load` call on `cbA` with `test_split_size = 1/4`
and `validation_split_size = 1/3`.  The shuffles realise a split that
sklearn's stratified shuffles can produce: `n_test = ceil(8/4) = 2` with test
cells `[0, 1]` (two "control"), and `n_val = ceil(6/3) = 2` with validation
cells `[2, 6]` (one "control", one "KO"), leaving the training set
`[3, 4, 5, 7]` — three "control" cells and one "KO" cell, so the training
classes have unequal sizes 3 and 1. -/
def cbLoad : Except LoadErr LoadOut × AnnData :=
  load cbA "perturbations" none (some [3]) 0 true 1 (1/4) (1/3) fixP
    [0, 1, 2, 3, 4, 5, 6, 7] [2, 6, 3, 4, 5, 7]

/-- The `LoadOut` of the `cbLoad` call (it succeeds). -/
def cbOut : LoadOut :=
  match cbLoad.1 with
  | .ok o => o
  | .error _ => default

/-! ### Structural lemmas about the network -/

theorem mlpNetwork_split (sizes : List ℕ) (dr : ℚ) (bn ln : Bool) (p : MLPParams)
    (h : 2 ≤ sizes.length) :
    mlpNetwork sizes dr bn ln p =
      (((List.range (sizes.length - 2)).flatMap (mlpChunk sizes dr bn ln p)).filterMap id)
        ++ [Layer.linear (sizes.getD (sizes.length - 2) 0) (sizes.getD (sizes.length - 1) 0)
              (p.W (sizes.length - 2)) (p.b (sizes.length - 2))] := by
  unfold mlpNetwork
  have hk : sizes.length - 1 = (sizes.length - 2) + 1 := by omega
  have hlast : sizes.length - 2 + 1 = sizes.length - 1 := by omega
  rw [hk, List.range_succ, List.flatMap_append]
  have hchunk : ([sizes.length - 2].flatMap (mlpChunk sizes dr bn ln p)).filterMap id
      = [Layer.linear (sizes.getD (sizes.length - 2) 0) (sizes.getD (sizes.length - 1) 0)
          (p.W (sizes.length - 2)) (p.b (sizes.length - 2)), Layer.relu] := by
    simp [mlpChunk, hlast]
  rw [List.filterMap_append, hchunk]
  rw [show ((List.range (sizes.length - 2)).flatMap (mlpChunk sizes dr bn ln p)).filterMap id
        ++ [Layer.linear (sizes.getD (sizes.length - 2) 0) (sizes.getD (sizes.length - 1) 0)
              (p.W (sizes.length - 2)) (p.b (sizes.length - 2)), Layer.relu]
      = (((List.range (sizes.length - 2)).flatMap (mlpChunk sizes dr bn ln p)).filterMap id
        ++ [Layer.linear (sizes.getD (sizes.length - 2) 0) (sizes.getD (sizes.length - 1) 0)
              (p.W (sizes.length - 2)) (p.b (sizes.length - 2))]) ++ [Layer.relu] by
    simp]
  rw [List.dropLast_concat, hlast]

theorem forward_apply_last (front : List Layer) (lin : Layer) (x : List ℚ) :
    mlpForwardLinear (front ++ [lin]) x
      = lin.apply (mlpEmbeddingF (front ++ [lin]) x) := by
  unfold mlpForwardLinear mlpEmbeddingF applyChain
  rw [List.dropLast_concat, List.foldl_append]
  rfl

/-- The number of test indices `n_test = ceil(test_split_size * n)` of the
first `train_test_split` call. -/
def nTestOf (ts : ℚ) (n : ℕ) : ℕ := Nat.ceil (ts * n)

/-- The number of validation indices
`n_val = ceil(validation_split_size * (n - n_test))` of the second
`train_test_split` call. -/
def nValOf (ts vs : ℚ) (n : ℕ) (p1 : List ℕ) : ℕ :=
  Nat.ceil (vs * (p1.drop (nTestOf ts n)).length)

/-- The annotated data object as mutated by a `load` call that passed both
`ValueError` checks: the original with the one-hot column written into
`obs["encoded_perturbations"]` (line 81). -/
def mutatedOf (a : AnnData) (tc : String) : AnnData :=
  { a with obs := setObsCol a.obs "encoded_perturbations" ((encodedOf a tc).map ColVal.vec) }

theorem load_ok_spec (a : AnnData) (tc : String) (lk : Option String)
    (hd : Option (List ℕ)) (dr : ℚ) (bn : Bool) (B : ℕ) (ts vs : ℚ) (p : MLPParams)
    (p1 p2 : List ℕ) (out : LoadOut) (a2 : AnnData)
    (hok : load a tc lk hd dr bn B ts vs p p1 p2 = (.ok out, a2)) :
    a2 = mutatedOf a tc
    ∧ entireDataOf (mutatedOf a tc) lk = .ok out.entireData
    ∧ out.nClasses = nClassesOf a tc
    ∧ out.sizes = sizesOf a tc hd
    ∧ out.net = mlpNetwork (sizesOf a tc hd) dr bn false p
    ∧ out.testIdx = p1.take (nTestOf ts a.n_obs)
    ∧ out.valIdx = p2.take (nValOf ts vs a.n_obs p1)
    ∧ out.trainIdx = p2.drop (nValOf ts vs a.n_obs p1)
    ∧ out.trainWeights
        = trainWeightsOf ((p2.drop (nValOf ts vs a.n_obs p1)).map
            (fun i => (encodedOf a tc).getD i []))
    ∧ out.entireBatchSize = B * 2
    ∧ out.entireLabels = targetLabels a tc
    ∧ out.adataObs = (mutatedOf a tc).obs := by
  unfold load at hok
  split at hok
  · exact absurd (congrArg Prod.fst hok) (by simp)
  · split at hok
    · dsimp only at hok
      split at hok
      · exact absurd (congrArg Prod.fst hok) (by simp)
      · rename_i edata hmatch
        have h1 := congrArg Prod.fst hok
        have h2 := congrArg Prod.snd hok
        simp only at h1 h2
        obtain rfl := Except.ok.inj h1
        subst h2
        refine ⟨rfl, ?_, rfl, rfl, rfl, rfl, rfl, rfl, rfl, rfl, rfl, rfl⟩
        exact hmatch
    · exact absurd (congrArg Prod.fst hok) (by simp)

theorem sizesOf_length (a : AnnData) (tc : String) (hd : Option (List ℕ)) :
    (sizesOf a tc hd).length = (hd.getD [512]).length + 2 := by
  simp [sizesOf]

/-! ### Claim C1 -/

/-- Claim C1: for every loaded model, the rows returned by `get_embeddings`
come from `MLP.embedding`, and `MLP.embedding` computes exactly the input to
the final classification `Linear` layer: the network splits as a hidden stack
followed by one `Linear`, the embedding runs everything except that `Linear`
(so its value is the output of the last hidden layer after its nonlinearity
and normalization), and the forward pass is that `Linear` applied to the
embedding. -/
theorem claim_C1_embedding_is_penultimate
    (a : AnnData) (tc : String) (lk : Option String) (hd : Option (List ℕ))
    (dr : ℚ) (bn : Bool) (B : ℕ) (ts vs : ℚ) (p : MLPParams) (p1 p2 : List ℕ)
    (out : LoadOut) (a2 : AnnData)
    (hok : load a tc lk hd dr bn B ts vs p p1 p2 = (.ok out, a2)) (x : List ℚ) :
    out.net.getLast? = some (finalLinear a tc hd p)
    ∧ mlpForwardLinear out.net x
        = (finalLinear a tc hd p).apply (mlpEmbeddingF out.net x) := by
  obtain ⟨-, -, -, -, hnet, -⟩ :=
    load_ok_spec a tc lk hd dr bn B ts vs p p1 p2 out a2 hok
  rw [hnet]
  have h2 : 2 ≤ (sizesOf a tc hd).length := by
    rw [sizesOf_length]
    omega
  rw [mlpNetwork_split _ _ _ _ _ h2]
  exact ⟨List.getLast?_concat _, forward_apply_last _ _ x⟩

/-- Witness for C1 at the concrete call `fixLoad` and the input `[1, 0]`. -/
theorem claim_C1_witness :
    fixOut.net.getLast? = some (finalLinear fixA "perturbations" (some [3]) fixP)
    ∧ mlpForwardLinear fixOut.net [1, 0]
        = (finalLinear fixA "perturbations" (some [3]) fixP).apply
            (mlpEmbeddingF fixOut.net [1, 0]) :=
  claim_C1_embedding_is_penultimate fixA "perturbations" none (some [3]) 0 true 1
    (1/4) (1/3) fixP [0, 1, 2, 3] [1, 2, 3] fixOut fixLoad.2 rfl [1, 0]

theorem mlpNetwork_head (sizes : List ℕ) (dr : ℚ) (bn ln : Bool) (p : MLPParams)
    (h : 2 ≤ sizes.length) :
    (mlpNetwork sizes dr bn ln p).head? =
      some (.linear (sizes.getD 0 0) (sizes.getD 1 0) (p.W 0) (p.b 0)) := by
  rw [mlpNetwork_split _ _ _ _ _ h]
  rcases Nat.lt_or_ge sizes.length 3 with h3 | h3
  · have h0 : sizes.length - 2 = 0 := by omega
    have h1 : sizes.length - 1 = 1 := by omega
    rw [h0, h1]
    simp
  · obtain ⟨m, hm⟩ : ∃ m, sizes.length - 2 = m + 1 := ⟨sizes.length - 3, by omega⟩
    rw [hm, List.range_succ_eq_map]
    simp [mlpChunk, List.flatMap_cons, List.filterMap_append, List.filterMap_cons]

theorem applyChain_chunk_length (sizes : List ℕ) (dr : ℚ) (bn ln : Bool)
    (p : MLPParams) (s : ℕ) (x : List ℚ) :
    (applyChain ((mlpChunk sizes dr bn ln p s).filterMap id) x).length
      = sizes.getD (s + 1) 0 := by
  cases bn <;> cases ln <;>
  by_cases h3 : s < sizes.length - 2 <;>
  simp [mlpChunk, h3, applyChain, Layer.apply]

theorem applyChain_range_length (sizes : List ℕ) (dr : ℚ) (bn ln : Bool)
    (p : MLPParams) (m : ℕ) (x : List ℚ) (hx : x.length = sizes.getD 0 0) :
    (applyChain (((List.range m).flatMap (mlpChunk sizes dr bn ln p)).filterMap id) x).length
      = sizes.getD m 0 := by
  induction m generalizing x with
  | zero => simpa [applyChain, List.getD] using hx
  | succ n ih =>
    rw [List.range_succ, List.flatMap_append, List.filterMap_append]
    unfold applyChain
    rw [List.foldl_append]
    have hstep := applyChain_chunk_length sizes dr bn ln p n
      (applyChain (((List.range n).flatMap (mlpChunk sizes dr bn ln p)).filterMap id) x)
    simpa [applyChain, List.flatMap_cons] using hstep

theorem mlpEmbeddingF_length (sizes : List ℕ) (dr : ℚ) (bn ln : Bool)
    (p : MLPParams) (h2 : 2 ≤ sizes.length) (x : List ℚ)
    (hx : x.length = sizes.getD 0 0) :
    (mlpEmbeddingF (mlpNetwork sizes dr bn ln p) x).length
      = sizes.getD (sizes.length - 2) 0 := by
  unfold mlpEmbeddingF
  rw [mlpNetwork_split _ _ _ _ _ h2, List.dropLast_concat]
  exact applyChain_range_length sizes dr bn ln p (sizes.length - 2) x hx

theorem getD_append_getLast? (l : List ℕ) (x : ℕ) (nv nC : ℕ)
    (hx : l.getLast? = some x) : ([nv] ++ l ++ [nC]).getD l.length 0 = x := by
  induction l generalizing nv x with
  | nil => simp at hx
  | cons a t ih =>
    cases t with
    | nil =>
      simp at hx
      simp [hx]
    | cons b t2 =>
      have h5 := ih x a (by simpa using hx)
      simpa using h5

theorem getD_append_last (l : List ℕ) (nv nC : ℕ) :
    ([nv] ++ l ++ [nC]).getD (l.length + 1) 0 = nC := by
  induction l with
  | nil => rfl
  | cons a t ih => simp

theorem sizesOf_last (a : AnnData) (tc : String) (hd : Option (List ℕ)) :
    (sizesOf a tc hd).getD ((sizesOf a tc hd).length - 1) 0 = nClassesOf a tc := by
  have h1 : (sizesOf a tc hd).length - 1 = (hd.getD [512]).length + 1 := by
    rw [sizesOf_length]
    omega
  rw [h1]
  exact getD_append_last (hd.getD [512]) a.n_vars (nClassesOf a tc)

/-! ### Claim C5 -/

/-- Claim C5: for every loaded model, the network's first layer is a `Linear`
whose input dimension is the number of genes `n_vars`, and its last layer is a
`Linear` whose output dimension is `n_classes`, the number of distinct labels
appearing in the target column (lines 77 and 112-114). -/
theorem claim_C5_network_dims
    (a : AnnData) (tc : String) (lk : Option String) (hd : Option (List ℕ))
    (dr : ℚ) (bn : Bool) (B : ℕ) (ts vs : ℚ) (p : MLPParams) (p1 p2 : List ℕ)
    (out : LoadOut) (a2 : AnnData)
    (hok : load a tc lk hd dr bn B ts vs p p1 p2 = (.ok out, a2)) :
    out.net.head? =
      some (.linear a.n_vars ((sizesOf a tc hd).getD 1 0) (p.W 0) (p.b 0))
    ∧ out.net.getLast? =
      some (.linear ((sizesOf a tc hd).getD ((sizesOf a tc hd).length - 2) 0)
        (nClassesOf a tc) (p.W ((sizesOf a tc hd).length - 2))
        (p.b ((sizesOf a tc hd).length - 2))) := by
  obtain ⟨-, -, -, -, hnet, -⟩ :=
    load_ok_spec a tc lk hd dr bn B ts vs p p1 p2 out a2 hok
  rw [hnet]
  have h2 : 2 ≤ (sizesOf a tc hd).length := by
    rw [sizesOf_length]
    omega
  constructor
  · exact mlpNetwork_head (sizesOf a tc hd) dr bn false p h2
  · rw [mlpNetwork_split _ _ _ _ _ h2, List.getLast?_concat, sizesOf_last]

/-- Witness for C5 at the concrete call `fixLoad`. -/
theorem claim_C5_witness :
    fixOut.net.head? =
      some (.linear fixA.n_vars
        ((sizesOf fixA "perturbations" (some [3])).getD 1 0) (fixP.W 0) (fixP.b 0))
    ∧ fixOut.net.getLast? =
      some (.linear
        ((sizesOf fixA "perturbations" (some [3])).getD
          ((sizesOf fixA "perturbations" (some [3])).length - 2) 0)
        (nClassesOf fixA "perturbations")
        (fixP.W ((sizesOf fixA "perturbations" (some [3])).length - 2))
        (fixP.b ((sizesOf fixA "perturbations" (some [3])).length - 2))) :=
  claim_C5_network_dims fixA "perturbations" none (some [3]) 0 true 1 (1/4) (1/3)
    fixP [0, 1, 2, 3] [1, 2, 3] fixOut fixLoad.2 rfl

/-! ### Claim C7 -/

/-- Claim C7, amended: for every loaded model with a nonempty `hidden_dim`
list (`[512]` by default), the feature dimension of the embedding equals the
last entry of `hidden_dim`, and it is strictly lower than the number of genes
whenever that entry is smaller than the gene count.  The original claim's
unconditional "strictly lower than the number of genes" is refuted by
`claim_C7_counterexample`. -/
theorem claim_C7_embedding_dim
    (a : AnnData) (tc : String) (lk : Option String) (hd : Option (List ℕ))
    (dr : ℚ) (bn : Bool) (B : ℕ) (ts vs : ℚ) (p : MLPParams) (p1 p2 : List ℕ)
    (out : LoadOut) (a2 : AnnData)
    (hok : load a tc lk hd dr bn B ts vs p p1 p2 = (.ok out, a2))
    (hne : hd.getD [512] ≠ []) (x : List ℚ) (hx : x.length = a.n_vars) :
    (mlpEmbeddingF out.net x).length = (hd.getD [512]).getLastD 0
    ∧ ((hd.getD [512]).getLastD 0 < a.n_vars →
        (mlpEmbeddingF out.net x).length < a.n_vars) := by
  obtain ⟨-, -, -, -, hnet, -⟩ :=
    load_ok_spec a tc lk hd dr bn B ts vs p p1 p2 out a2 hok
  rw [hnet]
  have h2 : 2 ≤ (sizesOf a tc hd).length := by
    rw [sizesOf_length]
    omega
  have hlen := mlpEmbeddingF_length (sizesOf a tc hd) dr bn false p h2 x hx
  have hk : (sizesOf a tc hd).length - 2 = (hd.getD [512]).length := by
    rw [sizesOf_length]
    omega
  rw [hk] at hlen
  obtain ⟨v, hv⟩ : ∃ v, (hd.getD [512]).getLast? = some v := by
    cases hh : (hd.getD [512]).getLast? with
    | none =>
      cases hdd : hd.getD [512] with
      | nil => exact absurd hdd hne
      | cons c t =>
        rw [hdd] at hh
        rw [List.getLast?_eq_getLast (c :: t) (by simp)] at hh
        exact absurd hh (by simp)
    | some v => exact ⟨v, rfl⟩
  have hD := getD_append_getLast? (hd.getD [512]) v a.n_vars (nClassesOf a tc) hv
  have hgl : (hd.getD [512]).getLastD 0 = v := by
    rw [List.getLastD_eq_getLast?, hv]
    rfl
  have hfst : (mlpEmbeddingF (mlpNetwork (sizesOf a tc hd) dr bn false p) x).length
      = (hd.getD [512]).getLastD 0 := by
    rw [hlen, hgl]
    exact hD
  exact ⟨hfst, fun hlt => by rw [hfst]; exact hlt⟩

/-- Counterexample to claim C7 as stated: `fixLoadDefault` loads `fixA` (two
genes) with the Python-default `hidden_dim = [512]`; the embedding feature
dimension is then 512, which is not strictly lower than the gene count. -/
theorem claim_C7_counterexample :
    (mlpEmbeddingF fixOutDefault.net [1, 0]).length = 512
    ∧ ¬ ((mlpEmbeddingF fixOutDefault.net [1, 0]).length < fixA.n_vars) := by
  have h2 : 2 ≤ (sizesOf fixA "perturbations" none).length := by decide
  have hlenx : ([(1 : ℚ), 0] : List ℚ).length
      = (sizesOf fixA "perturbations" none).getD 0 0 := by decide
  have hlen := mlpEmbeddingF_length (sizesOf fixA "perturbations" none) 0 true
    false fixP h2 [1, 0] hlenx
  have hnet : fixOutDefault.net
      = mlpNetwork (sizesOf fixA "perturbations" none) 0 true false fixP := rfl
  rw [hnet, hlen]
  constructor
  · decide
  · decide

/-- Witness for the amended C7 at the concrete call `fixLoad`
(`hidden_dim = [3]`, two genes): the embedding dimension is the last hidden
size. -/
theorem claim_C7_witness :
    (mlpEmbeddingF fixOut.net [1, 0]).length
      = ((some [3] : Option (List ℕ)).getD [512]).getLastD 0
    ∧ (((some [3] : Option (List ℕ)).getD [512]).getLastD 0 < fixA.n_vars →
        (mlpEmbeddingF fixOut.net [1, 0]).length < fixA.n_vars) :=
  claim_C7_embedding_dim fixA "perturbations" none (some [3]) 0 true 1 (1/4)
    (1/3) fixP [0, 1, 2, 3] [1, 2, 3] fixOut fixLoad.2 rfl (by decide) [1, 0] rfl

/-! ### Claims C8 and C9 -/

theorem layerKeyBad_iff (a : AnnData) (lk : Option String) :
    layerKeyBad a lk ↔ ∃ k, lk = some k ∧ k ∉ obsNames a.obs := by
  cases lk <;> simp [layerKeyBad]

theorem entireDataOf_error (a : AnnData) (lk : Option String) (e : LoadErr)
    (h : entireDataOf a lk = .error e) : e = .keyErrorLayer := by
  unfold entireDataOf at h
  split at h
  · simp at h
  · split at h
    · simp at h
    · exact (Except.error.inj h).symm

/-- Claim C8: a successful `load` mutates its input only by writing the
one-hot encoded labels as a new observation column: afterwards the object's
`obs` is the original table with `"encoded_perturbations"` appended (holding
the one-hot encoding of each cell's target-column label), while the data
matrix `X`, the variable table `var`, the `layers` mapping, and every other
observation column are unchanged. -/
theorem claim_C8_mutation
    (a : AnnData) (tc : String) (lk : Option String) (hd : Option (List ℕ))
    (dr : ℚ) (bn : Bool) (B : ℕ) (ts vs : ℚ) (p : MLPParams) (p1 p2 : List ℕ)
    (out : LoadOut) (a2 : AnnData)
    (hok : load a tc lk hd dr bn B ts vs p p1 p2 = (.ok out, a2))
    (hfresh : "encoded_perturbations" ∉ obsNames a.obs) :
    a2.X = a.X ∧ a2.var = a.var ∧ a2.layers = a.layers
    ∧ a2.obs = a.obs
        ++ [("encoded_perturbations", (encodedOf a tc).map ColVal.vec)] := by
  obtain ⟨ha2, -⟩ := load_ok_spec a tc lk hd dr bn B ts vs p p1 p2 out a2 hok
  subst ha2
  refine ⟨rfl, rfl, rfl, ?_⟩
  show setObsCol a.obs "encoded_perturbations" ((encodedOf a tc).map ColVal.vec)
    = a.obs ++ [("encoded_perturbations", (encodedOf a tc).map ColVal.vec)]
  unfold setObsCol
  rw [if_neg hfresh]

/-- Witness for C8 at the concrete call `fixLoad`. -/
theorem claim_C8_witness :
    fixLoad.2.X = fixA.X ∧ fixLoad.2.var = fixA.var
    ∧ fixLoad.2.layers = fixA.layers
    ∧ fixLoad.2.obs = fixA.obs
        ++ [("encoded_perturbations",
              (encodedOf fixA "perturbations").map ColVal.vec)] :=
  claim_C8_mutation fixA "perturbations" none (some [3]) 0 true 1 (1/4) (1/3)
    fixP [0, 1, 2, 3] [1, 2, 3] fixOut fixLoad.2 rfl (by decide)

/-- Claim C9: `load` raises its layer-key `ValueError` exactly when a
non-None `layer_key` is absent from the observation column names — the check
of line 67 consults `adata.obs.columns`, not the layers mapping, so a key
naming an existing layer that is not an observation column is rejected — it
raises its target-column `ValueError` exactly when the layer-key check passed
and `target_col` is not an observation column, and in either error case the
annotated data object is handed back unchanged. -/
theorem claim_C9_value_errors
    (a : AnnData) (tc : String) (lk : Option String) (hd : Option (List ℕ))
    (dr : ℚ) (bn : Bool) (B : ℕ) (ts vs : ℚ) (p : MLPParams) (p1 p2 : List ℕ) :
    ((load a tc lk hd dr bn B ts vs p p1 p2).1 = .error .valueErrorLayerKey
      ↔ (∃ k, lk = some k ∧ k ∉ obsNames a.obs))
    ∧ ((load a tc lk hd dr bn B ts vs p p1 p2).1 = .error .valueErrorTargetCol
      ↔ (¬ (∃ k, lk = some k ∧ k ∉ obsNames a.obs)) ∧ tc ∉ obsNames a.obs)
    ∧ (((load a tc lk hd dr bn B ts vs p p1 p2).1 = .error .valueErrorLayerKey
        ∨ (load a tc lk hd dr bn B ts vs p p1 p2).1 = .error .valueErrorTargetCol)
      → (load a tc lk hd dr bn B ts vs p p1 p2).2 = a) := by
  by_cases hbad : layerKeyBad a lk
  · have hl : load a tc lk hd dr bn B ts vs p p1 p2
        = (.error .valueErrorLayerKey, a) := by
      unfold load
      rw [if_pos hbad]
    rw [hl]
    refine ⟨?_, ?_, fun _ => rfl⟩
    · simpa using (layerKeyBad_iff a lk).mp hbad
    · constructor
      · intro h
        simp at h
      · rintro ⟨hnb, -⟩
        exact absurd ((layerKeyBad_iff a lk).mp hbad) hnb
  · by_cases htc : tc ∈ obsNames a.obs
    · unfold load
      rw [if_neg hbad, if_pos htc]
      dsimp only
      split
      · rename_i e heq
        have he : e = .keyErrorLayer := entireDataOf_error _ lk e heq
        subst he
        refine ⟨?_, ?_, ?_⟩
        · constructor
          · intro h
            simp at h
          · intro hex
            exact absurd ((layerKeyBad_iff a lk).mpr hex) hbad
        · constructor
          · intro h
            simp at h
          · rintro ⟨-, htc2⟩
            exact absurd htc htc2
        · rintro (h | h) <;> simp at h
      · refine ⟨?_, ?_, ?_⟩
        · constructor
          · intro h
            simp at h
          · intro hex
            exact absurd ((layerKeyBad_iff a lk).mpr hex) hbad
        · constructor
          · intro h
            simp at h
          · rintro ⟨-, htc2⟩
            exact absurd htc htc2
        · rintro (h | h) <;> simp at h
    · have hl : load a tc lk hd dr bn B ts vs p p1 p2
          = (.error .valueErrorTargetCol, a) := by
        unfold load
        rw [if_neg hbad, if_neg htc]
      rw [hl]
      refine ⟨?_, ?_, fun _ => rfl⟩
      · constructor
        · intro h
          simp at h
        · intro hex
          exact absurd ((layerKeyBad_iff a lk).mpr hex) hbad
      · constructor
        · intro _
          exact ⟨fun hex => absurd ((layerKeyBad_iff a lk).mpr hex) hbad, htc⟩
        · intro _
          rfl

/-- Witness for C9: on `fixB` the key `"l1"` names an existing layer but is
not an observation column, so `load` rejects it with the layer-key
`ValueError` and leaves the object unchanged. -/
theorem claim_C9_witness :
    (load fixB "perturbations" (some "l1") none 0 true 1 (1/4) (1/3) fixP
        [0, 1] [1]).1 = .error .valueErrorLayerKey
    ∧ (load fixB "perturbations" (some "l1") none 0 true 1 (1/4) (1/3) fixP
        [0, 1] [1]).2 = fixB := by
  have hmain := claim_C9_value_errors fixB "perturbations" (some "l1") none 0
    true 1 (1/4) (1/3) fixP [0, 1] [1]
  have h1 := hmain.1.mpr ⟨"l1", rfl, by decide⟩
  exact ⟨h1, hmain.2.2 (Or.inl h1)⟩

/-! ### Claim C6 -/

/-- Claim C6: `load` partitions the cell indices into pairwise disjoint
train/validation/test subsets whose union is the full index set; the test
subset holds `ceil(test_split_size * n)` cells (sklearn's rounding of the
`test_split_size` fraction of all cells) and the validation subset holds
`ceil(validation_split_size * (n - n_test))` cells (the
`validation_split_size` fraction of the remaining train portion). -/
theorem claim_C6_split_partition
    (a : AnnData) (tc : String) (lk : Option String) (hd : Option (List ℕ))
    (dr : ℚ) (bn : Bool) (B : ℕ) (ts vs : ℚ) (p : MLPParams) (p1 p2 : List ℕ)
    (out : LoadOut) (a2 : AnnData)
    (hok : load a tc lk hd dr bn B ts vs p p1 p2 = (.ok out, a2))
    (hperm1 : p1.Perm (List.range a.n_obs))
    (hperm2 : p2.Perm (p1.drop (nTestOf ts a.n_obs)))
    (hts0 : 0 ≤ ts) (hts1 : ts ≤ 1) (hvs0 : 0 ≤ vs) (hvs1 : vs ≤ 1) :
    (out.testIdx ++ out.valIdx ++ out.trainIdx).Perm (List.range a.n_obs)
    ∧ out.testIdx.Disjoint out.valIdx
    ∧ out.testIdx.Disjoint out.trainIdx
    ∧ out.valIdx.Disjoint out.trainIdx
    ∧ out.testIdx.length = Nat.ceil (ts * a.n_obs)
    ∧ out.valIdx.length = Nat.ceil (vs * ((a.n_obs - nTestOf ts a.n_obs : ℕ) : ℚ)) := by
  obtain ⟨-, -, -, -, -, htest, hval, htrain, -, -, -, -⟩ :=
    load_ok_spec a tc lk hd dr bn B ts vs p p1 p2 out a2 hok
  have hlen1 : p1.length = a.n_obs := by
    rw [hperm1.length_eq, List.length_range]
  have hnd1 : p1.Nodup := hperm1.symm.nodup (List.nodup_range _)
  have hnTle : nTestOf ts a.n_obs ≤ p1.length := by
    rw [hlen1]
    refine Nat.ceil_le.mpr ?_
    calc ts * (a.n_obs : ℚ) ≤ 1 * (a.n_obs : ℚ) :=
          mul_le_mul_of_nonneg_right hts1 (Nat.cast_nonneg _)
      _ = (a.n_obs : ℚ) := one_mul _
  have hlen2 : p2.length = (p1.drop (nTestOf ts a.n_obs)).length := hperm2.length_eq
  have hnd2 : p2.Nodup :=
    hperm2.symm.nodup (List.Nodup.sublist (List.drop_sublist _ _) hnd1)
  have hnVle : nValOf ts vs a.n_obs p1 ≤ p2.length := by
    rw [hlen2]
    refine Nat.ceil_le.mpr ?_
    calc vs * ((p1.drop (nTestOf ts a.n_obs)).length : ℚ)
        ≤ 1 * ((p1.drop (nTestOf ts a.n_obs)).length : ℚ) :=
          mul_le_mul_of_nonneg_right hvs1 (Nat.cast_nonneg _)
      _ = _ := one_mul _
  rw [htest, hval, htrain]
  have hDtd1 : List.Disjoint (p1.take (nTestOf ts a.n_obs))
      (p1.drop (nTestOf ts a.n_obs)) := List.disjoint_take_drop hnd1 le_rfl
  have hsub2 : p2 ⊆ p1.drop (nTestOf ts a.n_obs) := hperm2.subset
  refine ⟨?_, ?_, ?_, ?_, ?_, ?_⟩
  · have h5 : p2.take (nValOf ts vs a.n_obs p1) ++ p2.drop (nValOf ts vs a.n_obs p1)
        = p2 := List.take_append_drop _ _
    rw [List.append_assoc, h5]
    refine ((hperm2.append_left (p1.take (nTestOf ts a.n_obs))).trans ?_)
    rw [List.take_append_drop]
    exact hperm1
  · intro i hit hiv
    exact hDtd1 hit (hsub2 (List.take_subset _ _ hiv))
  · intro i hit hitr
    exact hDtd1 hit (hsub2 (List.drop_subset _ _ hitr))
  · exact List.disjoint_take_drop hnd2 le_rfl
  · rw [List.length_take]
    exact min_eq_left hnTle
  · rw [List.length_take, min_eq_left hnVle]
    unfold nValOf
    rw [List.length_drop, hlen1]

/-- Witness for C6 at the concrete call `fixLoad` (4 cells,
`test_split_size = 1/4`, `validation_split_size = 1/3`). -/
theorem claim_C6_witness :
    (fixOut.testIdx ++ fixOut.valIdx ++ fixOut.trainIdx).Perm
      (List.range fixA.n_obs)
    ∧ fixOut.testIdx.Disjoint fixOut.valIdx
    ∧ fixOut.testIdx.Disjoint fixOut.trainIdx
    ∧ fixOut.valIdx.Disjoint fixOut.trainIdx
    ∧ fixOut.testIdx.length = Nat.ceil ((1/4 : ℚ) * fixA.n_obs)
    ∧ fixOut.valIdx.length
        = Nat.ceil ((1/3 : ℚ) * ((fixA.n_obs - nTestOf (1/4) fixA.n_obs : ℕ) : ℚ)) := by
  have hc1 : nTestOf (1/4) fixA.n_obs = 1 := by
    unfold nTestOf
    have h4 : fixA.n_obs = 4 := rfl
    rw [h4]
    rw [Nat.ceil_eq_iff (by norm_num)]
    push_cast
    norm_num
  have hperm2 : ([1, 2, 3] : List ℕ).Perm
      (([0, 1, 2, 3] : List ℕ).drop (nTestOf (1/4) fixA.n_obs)) := by
    rw [hc1]
    decide
  exact claim_C6_split_partition fixA "perturbations" none (some [3]) 0 true 1
    (1/4) (1/3) fixP [0, 1, 2, 3] [1, 2, 3] fixOut fixLoad.2 rfl (by decide)
    hperm2 (by norm_num) (by norm_num) (by norm_num) (by norm_num)

/-! ### Claim C2 -/

theorem cb_nTest : nTestOf (1/4) cbA.n_obs = 2 := by
  unfold nTestOf
  have h8 : cbA.n_obs = 8 := rfl
  rw [h8, Nat.ceil_eq_iff (by norm_num)]
  push_cast
  norm_num

theorem cb_nVal :
    nValOf (1/4) (1/3) cbA.n_obs [0, 1, 2, 3, 4, 5, 6, 7] = 2 := by
  unfold nValOf
  rw [cb_nTest]
  have h6 : ((([0, 1, 2, 3, 4, 5, 6, 7] : List ℕ).drop 2).length : ℚ) = 6 := by
    norm_num
  rw [h6, Nat.ceil_eq_iff (by norm_num)]
  norm_num

theorem cb_encoded :
    encodedOf cbA "perturbations"
      = [[0, 1], [0, 1], [0, 1], [0, 1], [0, 1], [0, 1], [1, 0], [1, 0]] := by
  have htl : targetLabels cbA "perturbations"
      = ["control", "control", "control", "control", "control", "control",
         "KO", "KO"] := rfl
  have hcats : ohCats ["control", "control", "control", "control", "control",
      "control", "KO", "KO"] = ["KO", "control"] := by
    decide
  unfold encodedOf
  rw [htl, hcats]
  simp [oneHotRow]

/-- Claim C2 fails on the code (code bug): line 105 computes the sampling
weight `1 / (1 + torch.sum(labels, dim=1))` where each row of `labels` is a
one-hot vector, so every row sums to 1 and every training cell receives the
constant weight `1/2` regardless of how many training cells share its label —
even though the comment of lines 102-104 ("Cells with rare perturbations are
sampled more") and the claim require a strictly larger weight for cells of
rarer training classes.  At the concrete call `cbLoad` the training set is
the cells `[3, 4, 5, 7]`, whose labels are three "control" and one "KO":
two training classes of unequal sizes 3 and 1.  All four sampling weights
are `1/2`, so the "KO" training cell (weight list position 3) does not
receive a strictly larger weight than a "control" training cell (position 0),
refuting the claimed strict decrease in training-class size. -/
theorem claim_C2_constant_weights :
    cbOut.trainIdx = [3, 4, 5, 7]
    ∧ (cbOut.trainIdx.map
        (fun i => (targetLabels cbA "perturbations").getD i "")).count "control" = 3
    ∧ (cbOut.trainIdx.map
        (fun i => (targetLabels cbA "perturbations").getD i "")).count "KO" = 1
    ∧ cbOut.trainWeights = [1/2, 1/2, 1/2, 1/2]
    ∧ ¬ (cbOut.trainWeights.getD 3 0 > cbOut.trainWeights.getD 0 0) := by
  have hti : cbOut.trainIdx
      = ([2, 6, 3, 4, 5, 7] : List ℕ).drop
          (nValOf (1/4) (1/3) cbA.n_obs [0, 1, 2, 3, 4, 5, 6, 7]) := rfl
  have hti2 : cbOut.trainIdx = [3, 4, 5, 7] := by
    rw [hti, cb_nVal]
    rfl
  have hW : cbOut.trainWeights
      = trainWeightsOf ((([2, 6, 3, 4, 5, 7] : List ℕ).drop
          (nValOf (1/4) (1/3) cbA.n_obs [0, 1, 2, 3, 4, 5, 6, 7])).map
            (fun i => (encodedOf cbA "perturbations").getD i [])) := rfl
  have hw2 : cbOut.trainWeights = [1/2, 1/2, 1/2, 1/2] := by
    rw [hW, cb_nVal, cb_encoded]
    show trainWeightsOf [[0, 1], [0, 1], [0, 1], [1, 0]]
      = [1/2, 1/2, 1/2, 1/2]
    unfold trainWeightsOf
    simp
    norm_num
  refine ⟨hti2, ?_, ?_, hw2, ?_⟩
  · rw [hti2]
    decide
  · rw [hti2]
    decide
  · rw [hw2]
    simp

/-! ### Lemmas about batching, squeezing, and the embedding loop -/

theorem chunksAux_fuel_irrel {α : Type} (k : ℕ) (hk : k ≠ 0) :
    ∀ (fuel : ℕ) (l : List α), l.length ≤ fuel →
      chunksAux k fuel l = chunksAux k l.length l := by
  intro fuel
  induction fuel using Nat.strong_induction_on with
  | _ fuel ih =>
    intro l hle
    cases l with
    | nil => cases fuel <;> rfl
    | cons x xs =>
      cases fuel with
      | zero => simp at hle
      | succ f =>
        show ((x :: xs).take k :: chunksAux k f ((x :: xs).drop k))
            = chunksAux k (xs.length + 1) (x :: xs)
        have hd : ((x :: xs).drop k).length ≤ f := by
          simp only [List.length_drop, List.length_cons]
          simp only [List.length_cons] at hle
          omega
        have hd2 : ((x :: xs).drop k).length ≤ xs.length := by
          simp only [List.length_drop, List.length_cons]
          omega
        rw [show chunksAux k (xs.length + 1) (x :: xs)
            = (x :: xs).take k :: chunksAux k xs.length ((x :: xs).drop k) from rfl]
        rw [ih f (by omega) _ hd]
        rw [ih xs.length (by simp only [List.length_cons] at hle; omega) _ hd2]

theorem chunks_cons_eq {α : Type} (k : ℕ) (hk : k ≠ 0) (x : α) (xs : List α) :
    chunks k (x :: xs) = (x :: xs).take k :: chunks k ((x :: xs).drop k) := by
  unfold chunks
  rw [if_neg hk, if_neg hk]
  show (x :: xs).take k :: chunksAux k xs.length ((x :: xs).drop k) = _
  rw [chunksAux_fuel_irrel k hk xs.length _
    (by simp only [List.length_drop, List.length_cons]; omega)]

theorem squeezeMat_mat (m m2 : List (List ℚ)) (h : squeezeMat m = .mat m2) :
    m2 = m := by
  unfold squeezeMat at h
  split at h
  · dsimp only at h
    split at h <;> simp at h
  · split at h
    · simp at h
    · exact (STensor.mat.inj h).symm

theorem squeezeMat_of_big (m : List (List ℚ)) (h1 : 2 ≤ m.length)
    (h2 : 2 ≤ (m.headD []).length) : squeezeMat m = .mat m := by
  unfold squeezeMat
  rw [if_neg (by omega), if_neg (by omega)]

theorem squeezeMat_single_not_mat (r : List ℚ) :
    (squeezeMat [r]).isMat = false := by
  unfold squeezeMat
  rw [if_pos (show ([r] : List (List ℚ)).length = 1 from rfl)]
  dsimp only
  split <;> rfl

theorem mkBatchAnnData_ok (t : STensor) (ys : List String) (bad : BatchAD)
    (h : mkBatchAnnData t ys = .ok bad) : t = .mat bad.X ∧ bad.pert = ys := by
  unfold mkBatchAnnData at h
  split at h
  · rename_i m
    obtain rfl := Except.ok.inj h
    exact ⟨rfl, rfl⟩
  · simp at h

theorem embLoop_ok (net : List Layer) (bs : List (List (List ℚ × String)))
    (acc : Option BatchAD) (res : BatchAD)
    (h : embLoop net acc bs = .ok (some res)) :
    res.X = accX acc ++ bs.flatten.map (fun c => mlpEmbeddingF net c.1)
    ∧ res.pert = accPert acc ++ bs.flatten.map Prod.snd := by
  induction bs generalizing acc with
  | nil =>
    cases acc with
    | none => simp [embLoop] at h
    | some q =>
      obtain rfl : q = res := by simpa [embLoop] using h
      simp [accX, accPert]
  | cons b bs ih =>
    unfold embLoop at h
    dsimp only at h
    split at h
    · simp at h
    · rename_i bad heq
      obtain ⟨hsq, hpert⟩ := mkBatchAnnData_ok _ _ _ heq
      have hX : bad.X = b.map (fun c => mlpEmbeddingF net c.1) := by
        have h9 := squeezeMat_mat _ _ hsq
        rw [h9, List.map_map]
        rfl
      cases acc with
      | none =>
        obtain ⟨ih1, ih2⟩ := ih (some bad) h
        constructor
        · rw [ih1, List.flatten_cons, List.map_append, accX, accX, hX]
          simp
        · rw [ih2, List.flatten_cons, List.map_append, accPert, accPert, hpert]
          simp
      | some q =>
        obtain ⟨ih1, ih2⟩ := ih (some ⟨q.X ++ bad.X, q.pert ++ bad.pert⟩) h
        constructor
        · rw [ih1, List.flatten_cons, List.map_append, accX, accX, hX]
          simp
        · rw [ih2, List.flatten_cons, List.map_append, accPert, accPert, hpert]
          simp

theorem chunks_flatten {α : Type} (k : ℕ) (hk : k ≠ 0) :
    ∀ (n : ℕ) (l : List α), l.length = n → (chunks k l).flatten = l := by
  intro n
  induction n using Nat.strong_induction_on with
  | _ n ih =>
    intro l hln
    cases l with
    | nil => simp [chunks, chunksAux]
    | cons x xs =>
      rw [chunks_cons_eq k hk, List.flatten_cons]
      have hrec := ih ((x :: xs).drop k).length
        (by
          have hn2 : xs.length + 1 = n := by simpa using hln
          simp only [List.length_drop, List.length_cons]
          omega)
        ((x :: xs).drop k) rfl
      rw [hrec, List.take_append_drop]

theorem getLastD_default_irrel {α : Type} (c : α) (cs : List α) (d1 d2 : α) :
    (c :: cs).getLastD d1 = (c :: cs).getLastD d2 := by
  rw [List.getLastD_eq_getLast?, List.getLastD_eq_getLast?,
    List.getLast?_eq_getLast (c :: cs) (by simp)]
  rfl

theorem chunks_ne_nil {α : Type} (k : ℕ) (hk : k ≠ 0) (x : α) (xs : List α) :
    chunks k (x :: xs) ≠ [] := by
  rw [chunks_cons_eq k hk]
  simp

theorem chunks_last_len {α : Type} (k : ℕ) (hk : k ≠ 0) :
    ∀ (n : ℕ) (l : List α), l.length = n → l.length % k = 1 →
      ((chunks k l).getLastD []).length = 1 := by
  intro n
  induction n using Nat.strong_induction_on with
  | _ n ih =>
    intro l hln hl
    cases l with
    | nil => simp at hl
    | cons x xs =>
      rw [chunks_cons_eq k hk]
      by_cases hle : (x :: xs).length ≤ k
      · have hdrop : (x :: xs).drop k = [] := List.drop_eq_nil_of_le hle
        rw [hdrop]
        have hlen1 : (x :: xs).length = 1 := by
          rcases Nat.lt_or_ge (x :: xs).length k with hlt | hge
          · rwa [Nat.mod_eq_of_lt hlt] at hl
          · have h9 : (x :: xs).length = k := le_antisymm hle hge
            rw [h9, Nat.mod_self] at hl
            exact absurd hl (by norm_num)
        have hnilc : chunks k ([] : List α) = [] := by simp [chunks, chunksAux]
        rw [hnilc, List.getLastD_cons, List.getLastD_nil, List.length_take, hlen1]
        omega
      · push_neg at hle
        have hdne : (x :: xs).drop k ≠ [] := by
          rw [← List.length_pos]
          simp only [List.length_drop]
          omega
        have hmod : ((x :: xs).drop k).length % k = 1 := by
          have h9 : (x :: xs).length = ((x :: xs).length - k) + k :=
            (Nat.sub_add_cancel (le_of_lt hle)).symm
          calc ((x :: xs).drop k).length % k
              = ((x :: xs).length - k) % k := by rw [List.length_drop]
            _ = (((x :: xs).length - k) + k) % k := (Nat.add_mod_right _ _).symm
            _ = (x :: xs).length % k := by rw [← h9]
            _ = 1 := hl
        have hrec := ih ((x :: xs).drop k).length
          (by
            have hn2 : xs.length + 1 = n := by simpa using hln
            simp only [List.length_drop, List.length_cons]
            omega)
          ((x :: xs).drop k) rfl hmod
        cases hcc : chunks k ((x :: xs).drop k) with
        | nil =>
          cases hdd : (x :: xs).drop k with
          | nil => exact absurd hdd hdne
          | cons y ys => exact absurd (hdd ▸ hcc) (chunks_ne_nil k hk y ys)
        | cons c cs =>
          rw [hcc] at hrec
          show ((c :: cs).getLastD ((x :: xs).take k)).length = 1
          rw [getLastD_default_irrel c cs ((x :: xs).take k) []]
          exact hrec

theorem lookupCol_mem {β : Type} (t : List (String × β)) (n : String) (v : β)
    (h : lookupCol t n = some v) : (n, v) ∈ t := by
  induction t with
  | nil => simp [lookupCol] at h
  | cons q rest ih =>
    unfold lookupCol at h
    split at h
    · rename_i hq
      obtain ⟨q1, q2⟩ := q
      simp only at hq
      subst hq
      obtain rfl := Option.some.inj h
      exact List.mem_cons_self _ _
    · exact List.mem_cons_of_mem _ (ih h)

theorem entireDataOf_ok_length (a : AnnData) (lk : Option String)
    (d : List (List ℚ)) (h : entireDataOf a lk = .ok d)
    (hlayers : ∀ pr ∈ a.layers, (pr.2 : List (List ℚ)).length = a.X.length) :
    d.length = a.X.length := by
  unfold entireDataOf at h
  split at h
  · obtain rfl := Except.ok.inj h
    rfl
  · rename_i k
    split at h
    · rename_i m hm
      obtain rfl := Except.ok.inj h
      exact hlayers (k, m) (lookupCol_mem _ _ _ hm)
    · simp at h

theorem getEmbeddings_ok_spec (out : LoadOut) (res : PertAD)
    (hB : out.entireBatchSize ≠ 0)
    (hlen : out.entireLabels.length = out.entireData.length)
    (h : getEmbeddings out = .ok res) :
    res.X = out.entireData.map (mlpEmbeddingF out.net)
    ∧ res.pert = out.entireLabels
    ∧ lookupCol res.obs "perturbations"
        = some (out.entireLabels.map ColVal.str) := by
  unfold getEmbeddings at h
  dsimp only at h
  split at h
  · simp at h
  · simp at h
  · rename_i pa hloop
    obtain ⟨h1, h2⟩ := embLoop_ok out.net _ none pa hloop
    have hflat := chunks_flatten out.entireBatchSize hB
      ((out.entireData.zip out.entireLabels).length)
      (out.entireData.zip out.entireLabels) rfl
    rw [hflat] at h1 h2
    have hX : pa.X = out.entireData.map (mlpEmbeddingF out.net) := by
      rw [h1]
      show (out.entireData.zip out.entireLabels).map
          ((mlpEmbeddingF out.net) ∘ Prod.fst) = _
      rw [← List.map_map, List.map_fst_zip _ _ (le_of_eq hlen.symm)]
    have hpert : pa.pert = out.entireLabels := by
      rw [h2]
      show (out.entireData.zip out.entireLabels).map Prod.snd = _
      rw [List.map_snd_zip _ _ (le_of_eq hlen)]
    obtain rfl := Except.ok.inj h
    refine ⟨hX, hpert, ?_⟩
    show lookupCol (dropObsCol (("perturbations", pa.pert.map ColVal.str) :: _)
      "encoded_perturbations") "perturbations" = _
    rw [hpert]
    rfl

/-! ### Claims C3 and C4 -/

/-- Claim C3: `get_embeddings` performs no pseudobulking: whenever it returns
an annotated data object, that object has exactly one row per loaded cell, in
the cells' order — its matrix is `MLP.embedding` applied to each cell's data
row, so the row count equals the loaded cell count.  (When the final batch
holds a single cell the call raises instead of returning — see C10 — and no
object is returned at all, so no aggregation ever happens.) -/
theorem claim_C3_no_pseudobulking
    (a : AnnData) (tc : String) (lk : Option String) (hd : Option (List ℕ))
    (dr : ℚ) (bn : Bool) (B : ℕ) (ts vs : ℚ) (p : MLPParams) (p1 p2 : List ℕ)
    (out : LoadOut) (a2 : AnnData) (res : PertAD)
    (hok : load a tc lk hd dr bn B ts vs p p1 p2 = (.ok out, a2))
    (hB : 1 ≤ B)
    (hlayers : ∀ pr ∈ a.layers, (pr.2 : List (List ℚ)).length = a.X.length)
    (hlab : (targetLabels a tc).length = a.X.length)
    (hemb : getEmbeddings out = .ok res) :
    res.X = out.entireData.map (mlpEmbeddingF out.net)
    ∧ res.X.length = a.n_obs := by
  obtain ⟨-, hed, -, -, -, -, -, -, -, hbs, hlabels, -⟩ :=
    load_ok_spec a tc lk hd dr bn B ts vs p p1 p2 out a2 hok
  have hdlen : out.entireData.length = a.X.length :=
    entireDataOf_ok_length (mutatedOf a tc) lk out.entireData hed hlayers
  have hB0 : out.entireBatchSize ≠ 0 := by
    rw [hbs]
    omega
  have hlen : out.entireLabels.length = out.entireData.length := by
    rw [hlabels, hlab, hdlen]
  obtain ⟨hX, -, -⟩ := getEmbeddings_ok_spec out res hB0 hlen hemb
  refine ⟨hX, ?_⟩
  rw [hX, List.length_map]
  exact hdlen

/-- Witness for C3 at the concrete call `fixLoad` followed by
`get_embeddings` (4 cells, 2 batches of 2). -/
theorem claim_C3_witness :
    fixPert.X = fixOut.entireData.map (mlpEmbeddingF fixOut.net)
    ∧ fixPert.X.length = fixA.n_obs :=
  claim_C3_no_pseudobulking fixA "perturbations" none (some [3]) 0 true 1
    (1/4) (1/3) fixP [0, 1, 2, 3] [1, 2, 3] fixOut fixLoad.2 fixPert rfl
    (by decide) (by decide) (by decide) rfl

/-- Claim C4: the object returned by `get_embeddings` is an annotated data
object: a cells-by-features matrix (one row per cell) together with an
observation table whose `perturbations` column holds, in order, each cell's
label from the target column of the loaded input. -/
theorem claim_C4_result_annotation
    (a : AnnData) (tc : String) (lk : Option String) (hd : Option (List ℕ))
    (dr : ℚ) (bn : Bool) (B : ℕ) (ts vs : ℚ) (p : MLPParams) (p1 p2 : List ℕ)
    (out : LoadOut) (a2 : AnnData) (res : PertAD)
    (hok : load a tc lk hd dr bn B ts vs p p1 p2 = (.ok out, a2))
    (hB : 1 ≤ B)
    (hlayers : ∀ pr ∈ a.layers, (pr.2 : List (List ℚ)).length = a.X.length)
    (hlab : (targetLabels a tc).length = a.X.length)
    (hemb : getEmbeddings out = .ok res) :
    res.pert = targetLabels a tc
    ∧ lookupCol res.obs "perturbations"
        = some ((targetLabels a tc).map ColVal.str)
    ∧ res.X.length = (targetLabels a tc).length := by
  obtain ⟨-, hed, -, -, -, -, -, -, -, hbs, hlabels, -⟩ :=
    load_ok_spec a tc lk hd dr bn B ts vs p p1 p2 out a2 hok
  have hdlen : out.entireData.length = a.X.length :=
    entireDataOf_ok_length (mutatedOf a tc) lk out.entireData hed hlayers
  have hB0 : out.entireBatchSize ≠ 0 := by
    rw [hbs]
    omega
  have hlen : out.entireLabels.length = out.entireData.length := by
    rw [hlabels, hlab, hdlen]
  obtain ⟨hX, hpert, hcol⟩ := getEmbeddings_ok_spec out res hB0 hlen hemb
  rw [hlabels] at hpert hcol
  refine ⟨hpert, hcol, ?_⟩
  rw [hX, List.length_map, hdlen, hlab]

/-- Witness for C4 at the concrete call `fixLoad` followed by
`get_embeddings`. -/
theorem claim_C4_witness :
    fixPert.pert = targetLabels fixA "perturbations"
    ∧ lookupCol fixPert.obs "perturbations"
        = some ((targetLabels fixA "perturbations").map ColVal.str)
    ∧ fixPert.X.length = (targetLabels fixA "perturbations").length :=
  claim_C4_result_annotation fixA "perturbations" none (some [3]) 0 true 1
    (1/4) (1/3) fixP [0, 1, 2, 3] [1, 2, 3] fixOut fixLoad.2 fixPert rfl
    (by decide) (by decide) (by decide) rfl

/-! ### Claim C10 -/

/-- Claim C10 (amended): in `get_embeddings`, (i) squeezing the embedding
matrix of a batch with more than one cell preserves the two-dimensional
cells-by-features shape provided the embedding feature dimension is at least
two; (ii) when the number of cells is congruent to 1 modulo twice the batch
size, the final batch of the full-data loader (consecutive chunks of size
`batch_size * 2`) holds exactly one cell, and (iii) squeezing a one-cell
embedding matrix never yields a two-dimensional matrix — the batch axis is
removed.  The original claim's part (i), stated without the feature-dimension
condition, is refuted by `claim_C10_counterexample`. -/
theorem claim_C10_squeeze_behavior (B : ℕ) (hB : 1 ≤ B) :
    (∀ m : List (List ℚ), 2 ≤ m.length → 2 ≤ (m.headD []).length →
      squeezeMat m = .mat m)
    ∧ (∀ l : List (List ℚ × String), l.length % (B * 2) = 1 →
        ((chunks (B * 2) l).getLastD []).length = 1)
    ∧ (∀ r : List ℚ, (squeezeMat [r]).isMat = false) := by
  refine ⟨squeezeMat_of_big, ?_, squeezeMat_single_not_mat⟩
  intro l hl
  exact chunks_last_len (B * 2) (by omega) l.length l rfl hl

/-- Witness for C10 with batch size 1 (loader batches of 2): a 2-by-2 batch
embedding stays a matrix, a 3-cell dataset leaves a final 1-cell batch, and a
1-cell embedding loses its batch axis. -/
theorem claim_C10_witness :
    squeezeMat [[1, 2], [3, 4]] = .mat [[1, 2], [3, 4]]
    ∧ ((chunks (1 * 2)
          [([0, 1], "a"), ([1, 0], "b"), ([2, 2], "c")]).getLastD []).length = 1
    ∧ (squeezeMat [[5, 6]]).isMat = false := by
  have h := claim_C10_squeeze_behavior 1 (by decide)
  exact ⟨h.1 [[1, 2], [3, 4]] (by decide) (by decide),
    h.2.1 [([0, 1], "a"), ([1, 0], "b"), ([2, 2], "c")] (by decide),
    h.2.2 [5, 6]⟩

/-- Counterexample to claim C10 as stated: a batch of two cells whose
embedding feature dimension is one also loses its two-dimensional shape under
`torch.squeeze` (the result is a one-dimensional vector, not a matrix), so
"for every batch with more than one cell squeezing preserves a
two-dimensional shape" needs the feature dimension to be at least two. -/
theorem claim_C10_counterexample :
    2 ≤ ([[(3 : ℚ)], [4]] : List (List ℚ)).length
    ∧ squeezeMat [[(3 : ℚ)], [4]] = .vec [3, 4]
    ∧ (squeezeMat [[(3 : ℚ)], [4]]).isMat = false :=
  ⟨by decide, rfl, rfl⟩
